import Mathlib

/-!
Shallow embedding of the analytic core of the stock-analysis-platform
repository (backend/app/services and backend/app/utils), together with
theorems settling the specification claims.  Numeric values are modelled
as rationals (reals where the source uses log10 or sqrt); nullable /
not-a-number values are modelled as `Option`.
-/

namespace StockPlatform

/-! Embedding of scoring_service.py : `_generate_signal` -/

/-- The seven signal types of `StockScoringModel._generate_signal`. -/
inductive SignalType
  | strong_buy | buy | watch | hold | reduce | sell | strong_sell
  deriving DecidableEq, Repr

/-- The `signal_types` dict of `_generate_signal`, in Python insertion
order (the order the loop scans). -/
def signalBands : List (SignalType × ℚ × ℚ) :=
  [(.strong_buy, 80, 100), (.buy, 70, 80), (.watch, 60, 70),
   (.hold, 50, 60), (.reduce, 40, 50), (.sell, 30, 40), (.strong_sell, 0, 30)]

/-- The band-scanning loop of `_generate_signal`: the first band with
`low <= total_score < high` wins; the default is `hold`. -/
def firstBand (t : ℚ) : List (SignalType × ℚ × ℚ) → SignalType
  | [] => .hold
  | (s, low, high) :: rest => if low ≤ t ∧ t < high then s else firstBand t rest

/-- Base strength assigned per signal type in `_generate_signal`. -/
def baseStrength : SignalType → ℤ
  | .strong_buy | .strong_sell => 3
  | .buy | .sell => 2
  | .watch | .reduce => 1
  | .hold => 0

structure Signal where
  ty : SignalType
  strength : ℤ
  confidence : ℚ
  deriving DecidableEq, Repr

/-- Embedding of `StockScoringModel._generate_signal` (scoring_service.py,
lines 292-332): band lookup, base strength, and the coordination penalty
`abs(capital-technical)/100 > 0.3`. -/
def generate_signal (total_score capital_score technical_score : ℚ) : Signal :=
  let ty := firstBand total_score signalBands
  let strength := baseStrength ty
  let coordination := |capital_score - technical_score| / 100
  let strength := if coordination > 3/10 then max 0 (strength - 1) else strength
  { ty := ty, strength := strength, confidence := min 100 total_score }

/-! Embedding of indicators.py : `calculate_rsi` -/

/-- Embedding of `np.diff`: consecutive differences. -/
def diffs : List ℚ → List ℚ
  | x :: y :: rest => (y - x) :: diffs (y :: rest)
  | _ => []

/-- The Wilder-smoothing loop of `calculate_rsi` (lines 60-78): state is
the running `(up, down)` pair, input is the remaining deltas, output is
the RSI value emitted at each position.  When `down` is 0 the code sets
`rs = 0`. -/
def rsiLoop (p : ℚ) : ℚ → ℚ → List ℚ → List ℚ
  | _, _, [] => []
  | up, down, d :: ds =>
    let upval := if d > 0 then d else 0
    let downval := if d > 0 then 0 else -d
    let up' := (up * (p - 1) + upval) / p
    let down' := (down * (p - 1) + downval) / p
    let rs := if down' = 0 then 0 else up' / down'
    (100 - 100 / (1 + rs)) :: rsiLoop p up' down' ds

/-- Embedding of `TechnicalIndicators.calculate_rsi` (indicators.py,
lines 41-80).  `none` models the all-NaN short-input return; positions
`0..period-1` hold the seed RSI, the rest come from the Wilder loop
(delta at position `i` is `deltas[i-1]`, i.e. `deltas.drop (period-1)`). -/
def calculate_rsi (prices : List ℚ) (period : ℕ) : List (Option ℚ) :=
  if prices.length < period + 1 then List.replicate prices.length none
  else
    let deltas := diffs prices
    let seed := deltas.take (period + 1)
    let up := (seed.filter (fun d => d ≥ 0)).sum / period
    let down := -((seed.filter (fun d => d < 0)).sum) / period
    let rs := if down = 0 then 0 else up / down
    ((List.replicate period (100 - 100 / (1 + rs))) ++
      rsiLoop period up down (deltas.drop (period - 1))).map some

/-! Embedding of analysis_service.py : continuity loop of `calculate_block_capital_flow` -/

/-- The `for flow in reversed(flows)` loop of
`calculate_block_capital_flow` (lines 80-85), applied to an
already-reversed list: count while strictly positive, break at the
first non-positive entry. -/
def continuityLoop : List ℚ → ℕ
  | [] => 0
  | f :: rest => if f > 0 then continuityLoop rest + 1 else 0

/-- The `continuity_days` value as computed by `calculate_block_capital_flow`
(analysis_service.py, lines 77-85) on the date-ascending flow list. -/
def continuity_days (flows : List ℚ) : ℕ :=
  continuityLoop flows.reverse

/-! Embedding of indicators.py : `calculate_ema` -/

/-- The `for price in prices[1:]` loop of `calculate_ema`: the state is
the last emitted EMA value. -/
def emaLoop (a : ℚ) : ℚ → List ℚ → List ℚ
  | _, [] => []
  | prev, x :: xs =>
    let e := a * x + (1 - a) * prev
    e :: emaLoop a e xs

/-- Embedding of `TechnicalIndicators.calculate_ema` (indicators.py,
lines 26-38): series shorter than the period yield all-NaN (`none`),
otherwise the seed is `prices[0]` and every value is defined. -/
def calculate_ema (prices : List ℚ) (period : ℕ) : List (Option ℚ) :=
  if prices.length < period then List.replicate prices.length none
  else
    match prices with
    | [] => []
    | x :: xs => (x :: emaLoop (2 / ((period : ℚ) + 1)) x xs).map some

/-! Embedding of indicators.py : `calculate_atr` -/

/-- The true-range list of `calculate_atr` (lines 140-146): called with
`highs.drop 1`, `lows.drop 1` and `closes`, so that position `i-1` of the
result pairs bar `i` with the previous close. -/
def trList : List ℚ → List ℚ → List ℚ → List ℚ
  | h :: hs, l :: ls, c :: cs =>
    max (h - l) (max |h - c| |l - c|) :: trList hs ls cs
  | _, _, _ => []

/-- The Wilder-smoothing loop of `calculate_atr` (lines 152-154). -/
def wilderLoop (p : ℚ) : ℚ → List ℚ → List ℚ
  | _, [] => []
  | atr, tr :: trs =>
    let a := (atr * (p - 1) + tr) / p
    a :: wilderLoop p a trs

/-- Embedding of `TechnicalIndicators.calculate_atr` (indicators.py,
lines 131-156).  `none` models NaN; `np.mean(tr_values[:period])`
divides by the number of elements actually taken (and is NaN on an
empty slice). -/
def calculate_atr (highs lows closes : List ℚ) (period : ℕ) : List (Option ℚ) :=
  if highs.length < period then List.replicate highs.length none
  else
    let tr := trList (highs.drop 1) (lows.drop 1) closes
    let first := tr.take period
    if first = [] then
      List.replicate period none ++ [none] ++ (tr.drop period).map (fun _ => none)
    else
      let atr0 := first.sum / first.length
      List.replicate period (none : Option ℚ) ++
        ((atr0 :: wilderLoop period atr0 (tr.drop period)).map some)

/-! Embedding of alert_service.py : `_check_capital_alerts` -/

inductive AlertLevel
  | warning | info
  deriving DecidableEq, Repr

inductive AlertType
  | capital_outflow | capital_divergence | capital_acceleration
  deriving DecidableEq, Repr

structure Alert where
  ty : AlertType
  level : AlertLevel
  deriving DecidableEq, Repr

/-- The row fetched by `_check_capital_alerts`; `prev_inflow` is the
scalar subquery for the prior day, `none` when no prior row exists. -/
structure CapitalAlertRow where
  net_inflow : ℚ
  large_net_inflow : ℚ
  inflow_ratio : ℚ
  prev_inflow : Option ℚ

/-- Embedding of `AlertService._check_capital_alerts` (alert_service.py,
lines 26-79).  The acceleration guard is the Python truthiness test
`if result.prev_inflow and result.net_inflow > result.prev_inflow * 2`,
under which both a missing prior value (`None`) and a prior value of
exactly `0` are falsy. -/
def check_capital_alerts (row : Option CapitalAlertRow) : List Alert :=
  match row with
  | none => []
  | some r =>
    (if r.net_inflow < -10000000 then [⟨.capital_outflow, .warning⟩] else []) ++
    (if 0 < r.net_inflow ∧ r.large_net_inflow < 0 then
        [⟨.capital_divergence, .warning⟩] else []) ++
    (match r.prev_inflow with
     | none => []
     | some p =>
        if p ≠ 0 ∧ r.net_inflow > p * 2 then
          [⟨.capital_acceleration, .info⟩] else [])

/-! Embedding of data_processor.py : `fill_missing_values` -/

/-- The valid (index, value) pairs of a data list, `none` marking NaN. -/
def validPairs (data : List (Option ℚ)) : List (ℕ × ℚ) :=
  data.enum.filterMap (fun p => p.2.map (fun v => (p.1, v)))

/-- Embedding of `np.interp` at integer sample points: clamp outside the known range,
linear interpolation between consecutive known points inside it. -/
def interpAt : List (ℕ × ℚ) → ℕ → ℚ
  | [], _ => 0
  | [(_, v)], _ => v
  | (j1, v1) :: (j2, v2) :: rest, i =>
    if i ≤ j1 then v1
    else if i ≤ j2 then
      v1 + (v2 - v1) * (((i : ℚ) - j1) / ((j2 : ℚ) - j1))
    else interpAt ((j2, v2) :: rest) i

/-- The `linear` branch of `fill_missing_values`. -/
def linearFill (data : List (Option ℚ)) : List (Option ℚ) :=
  data.enum.map (fun p =>
    match p.2 with
    | some v => some v
    | none => some (interpAt (validPairs data) p.1))

/-- The `mean` branch of `fill_missing_values` (`np.nanmean`). -/
def meanFill (data : List (Option ℚ)) : List (Option ℚ) :=
  let vals := data.filterMap id
  data.map (fun o => some (o.getD (vals.sum / vals.length)))

/-- Result of `fill_missing_values`: either a list, or the `NameError`
raised because `data_processor.py` imports only `json`, `numpy`,
`typing` and `datetime` — the name `pd` used by the `forward` and
`backward` branches (`pd.Series(...).ffill()` / `.bfill()`) is never
bound in the module, so reaching those branches raises
`NameError: name 'pd' is not defined`. -/
inductive FillResult
  | ok (l : List (Option ℚ))
  | nameError
  deriving DecidableEq, Repr

/-- Embedding of `DataProcessor.fill_missing_values` (data_processor.py,
lines 120-147). -/
def fill_missing_values (data : List (Option ℚ)) (method : String) : FillResult :=
  if data = [] then .ok []
  else if data.all (fun o => o.isSome) then .ok data
  else if method = "linear" then .ok (linearFill data)
  else if method = "forward" then .nameError
  else if method = "backward" then .nameError
  else if method = "mean" then .ok (meanFill data)
  else .ok data

/-! Embedding of cost_analysis_service.py : `_find_cost_levels` -/

/-- The per-day fields of the cost history consumed by
`_find_cost_levels`. -/
structure DailyCost where
  buy_vwap : ℚ
  total_buy_amount : ℚ

inductive LevelKind
  | support | resistance
  deriving DecidableEq, Repr

structure CostLevel where
  price_level : ℚ
  frequency_weight : ℚ
  volume_weight : ℚ
  sample_count : ℕ
  kind : LevelKind
  deriving DecidableEq, Repr

/-- Embedding of `xs[clusters == i]`: the entries of `xs` whose position carries
cluster label `i`, in order. -/
def clusterPoints (xs : List ℚ) (assign : List ℕ) (i : ℕ) : List ℚ :=
  (xs.zip assign).filterMap (fun p => if p.2 = i then some p.1 else none)

/-- Embedding of `np.argmin`: index of the first occurrence of the minimum. -/
def argminIdx : List ℚ → ℕ
  | [] => 0
  | [_] => 0
  | x :: y :: rest =>
    let j := argminIdx (y :: rest)
    if x ≤ (y :: rest).getD j 0 then 0 else j + 1

/-- The ordering key of `sorted(levels, key=lambda x: x['price_level'])`. -/
def levelLE (a b : CostLevel) : Prop := a.price_level ≤ b.price_level

instance : DecidableRel levelLE :=
  fun a b => inferInstanceAs (Decidable (a.price_level ≤ b.price_level))

instance : IsTotal CostLevel levelLE := ⟨fun a b => le_total a.price_level b.price_level⟩

instance : IsTrans CostLevel levelLE := ⟨fun _ _ _ h h' => le_trans h h'⟩

/-- Embedding of `float(np.mean(cluster_points))`: the mean of cluster `i`.  For a
converged KMeans fit this is also `cluster_centers_[i]`, so the same
expression models both the recomputed `center` and the entry of
`kmeans.cluster_centers_` that `np.argmin` scans. -/
def clusterCenter (buyCosts : List ℚ) (assign : List ℕ) (i : ℕ) : ℚ :=
  (clusterPoints buyCosts assign i).sum / (clusterPoints buyCosts assign i).length

/-- The body of the `for i in range(n_clusters)` loop of
`_find_cost_levels`: `none` for an empty cluster, otherwise the level
record, labeled support exactly when `i` is the argmin of the centers. -/
def levelOf (buyCosts volumes : List ℚ) (assign : List ℕ) (iMin i : ℕ) : Option CostLevel :=
  if (clusterPoints buyCosts assign i).isEmpty then none
  else
    some { price_level := clusterCenter buyCosts assign i
           frequency_weight := ((clusterPoints buyCosts assign i).length : ℚ) / buyCosts.length
           volume_weight :=
             if 0 < volumes.sum then (clusterPoints volumes assign i).sum / volumes.sum else 0
           sample_count := (clusterPoints buyCosts assign i).length
           kind := if i = iMin then LevelKind.support else LevelKind.resistance }

/-- Embedding of `HoldingCostAnalysis._find_cost_levels`
(cost_analysis_service.py, lines 236-283).  The sklearn KMeans call is
modelled by its convergence contract: `assign` is the label list
returned by `fit_predict`, and `cluster_centers_[i]` equals the mean of
the points assigned to cluster `i` (kept nonempty by KMeans).
`n_clusters = min(3, len(set(buy_costs)))`, the support label goes to
`np.argmin(cluster_centers_)`, and the result is sorted ascending by
`price_level`. -/
def find_cost_levels (hist : List DailyCost) (assign : List ℕ) : List CostLevel :=
  if hist.isEmpty then []
  else
    let buyCosts := hist.map (fun d => d.buy_vwap)
    let volumes := hist.map (fun d => d.total_buy_amount)
    if buyCosts.length < 3 then []
    else
      let nClusters := min 3 buyCosts.dedup.length
      let iMin := argminIdx ((List.range nClusters).map (clusterCenter buyCosts assign))
      List.insertionSort levelLE
        ((List.range nClusters).filterMap (levelOf buyCosts volumes assign iMin))

/-! Embedding of analysis_service.py : `_calculate_stability` -/

/-- Embedding of `np.mean` over the reals. -/
noncomputable def listMean (l : List ℝ) : ℝ := l.sum / l.length

/-- Embedding of `np.std` (population standard deviation) over the reals. -/
noncomputable def listStd (l : List ℝ) : ℝ :=
  Real.sqrt ((l.map (fun x => (x - listMean l) ^ 2)).sum / l.length)

/-- Embedding of `CapitalFlowAnalysis._calculate_stability`
(analysis_service.py, lines 175-183): `1.0` for fewer than two points or
zero mean, otherwise `1 - std/|mean|`. -/
noncomputable def calculate_stability (flows : List ℝ) : ℝ :=
  if flows.length < 2 then 1
  else if listMean flows ≠ 0 then 1 - listStd flows / |listMean flows| else 1

/-! Embedding of scoring_service.py : the four sub-scores and the total -/

/-- Python truthiness of a nullable numeric field: `None` and `0` are
falsy. -/
def truthy (o : Option ℝ) : Prop := o.getD 0 ≠ 0

noncomputable instance : DecidablePred truthy :=
  fun o => inferInstanceAs (Decidable (o.getD 0 ≠ 0))

/-- The value of a truthiness-guarded field once known truthy. -/
def tval (o : Option ℝ) : ℝ := o.getD 0

/-- The clamp `min(max(score, 0), 100)` ending every sub-score. -/
noncomputable def clampScore (s : ℝ) : ℝ := min (max s 0) 100

/-- Row consumed by `_calculate_capital_score`; `positive_days` is the
`COUNT(*)` subquery. -/
structure CapitalRow where
  net_inflow : ℝ
  inflow_ratio : ℝ
  large_net_inflow : ℝ
  large_inflow_ratio : ℝ
  total_amount : ℝ
  positive_days : ℕ

/-- Embedding of `StockScoringModel._calculate_capital_score`
(scoring_service.py, lines 73-118); a missing row yields the neutral
`50.0`. -/
noncomputable def calculate_capital_score (row : Option CapitalRow) : ℝ :=
  match row with
  | none => 50
  | some r =>
    let s := (50 : ℝ)
    let s := s + (if 0 < r.net_inflow then min (r.inflow_ratio * 2) 25 else 0)
    let s := s + (if 0 < r.large_net_inflow then min (r.large_inflow_ratio * 2) 25 else 0)
    let s := s + min ((r.positive_days : ℝ) * 4) 20
    let s := s + min (Real.logb 10 (max r.total_amount 1) - 6) 10
    clampScore s

/-- Row consumed by `_calculate_technical_score`; truthiness-guarded
fields are `Option`. -/
structure TechnicalRow where
  close_price : ℝ
  ma5 : Option ℝ
  ma20 : Option ℝ
  ma60 : Option ℝ
  volume : Option ℝ
  vma5 : Option ℝ
  vma20 : Option ℝ
  change_pct : ℝ
  amplitude : ℝ
  turnover_rate : ℝ

/-- Embedding of `StockScoringModel._calculate_technical_score`
(scoring_service.py, lines 120-179). -/
noncomputable def calculate_technical_score (row : Option TechnicalRow) : ℝ :=
  match row with
  | none => 50
  | some r =>
    let ma_score : ℝ :=
      if truthy r.ma5 ∧ truthy r.ma20 ∧ truthy r.ma60 then
        if tval r.ma20 < tval r.ma5 ∧ tval r.ma60 < tval r.ma20 then 30
        else if tval r.ma20 < tval r.ma5 then 20
        else if tval r.ma5 < r.close_price then 10
        else 0
      else 0
    let vol_score : ℝ :=
      if truthy r.volume ∧ truthy r.vma5 then
        let volume_ratio := if 0 < tval r.vma5 then tval r.volume / tval r.vma5 else 1
        if 0 < r.change_pct ∧ 12/10 < volume_ratio then 20
        else if 0 < r.change_pct ∧ 1 < volume_ratio then 10
        else 0
      else 0
    let trend_score : ℝ :=
      if truthy r.ma5 ∧ truthy r.ma20 then
        min |(tval r.ma5 - tval r.ma20) / tval r.ma20 * 100| 15
      else 0
    let adj : ℝ :=
      if r.change_pct ≠ 0 then
        if 9 < r.change_pct then -10
        else if r.change_pct < -9 then 5
        else 0
      else 0
    clampScore (50 + ma_score + vol_score + trend_score + adj)

/-- Row consumed by `_calculate_fundamental_score`. -/
structure FundamentalRow where
  block_type : Option String
  inflow_ratio : Option ℝ
  ranking : Option ℝ
  continuity_days : Option ℝ

/-- Embedding of `StockScoringModel._calculate_fundamental_score`
(scoring_service.py, lines 181-229). -/
noncomputable def calculate_fundamental_score (row : Option FundamentalRow) : ℝ :=
  match row with
  | none => 50
  | some r =>
    let inflow : ℝ := if truthy r.inflow_ratio then min (tval r.inflow_ratio * 5) 25 else 0
    let rank : ℝ := if truthy r.ranking then max 0 (20 - tval r.ranking / 5) else 0
    let cont : ℝ := if truthy r.continuity_days then min (tval r.continuity_days * 3) 15 else 0
    let bt : ℝ :=
      if r.block_type = some "concept" then 5
      else if r.block_type = some "industry" then 10
      else 0
    clampScore (50 + inflow + rank + cont + bt)

/-- Row consumed by `_calculate_risk_score`. -/
structure RiskRow where
  amplitude : Option ℝ
  turnover_rate : Option ℝ
  total_amount : Option ℝ
  volatility_20d : Option ℝ

/-- Embedding of `StockScoringModel._calculate_risk_score`
(scoring_service.py, lines 231-290): deductions from a 100 base. -/
noncomputable def calculate_risk_score (row : Option RiskRow) : ℝ :=
  match row with
  | none => 50
  | some r =>
    let d1 : ℝ :=
      if truthy r.amplitude then
        if 10 < tval r.amplitude then 30
        else if 7 < tval r.amplitude then 20
        else if 5 < tval r.amplitude then 10
        else 0
      else 0
    let d2 : ℝ :=
      if truthy r.turnover_rate then
        if 20 < tval r.turnover_rate then 25
        else if 10 < tval r.turnover_rate then 15
        else if 5 < tval r.turnover_rate then 5
        else 0
      else 0
    let d3 : ℝ :=
      if truthy r.total_amount then
        if tval r.total_amount < 10000000 then 20
        else if tval r.total_amount < 50000000 then 10
        else 0
      else 0
    let d4 : ℝ :=
      if truthy r.volatility_20d then
        if 3 < tval r.volatility_20d then 15
        else if 2 < tval r.volatility_20d then 10
        else 0
      else 0
    clampScore (100 - d1 - d2 - d3 - d4)

/-- The `ScoringWeights` dataclass (scoring_service.py, lines 8-14). -/
structure ScoringWeights where
  capital : ℝ := 40/100
  technical : ℝ := 30/100
  fundamental : ℝ := 20/100
  risk : ℝ := 10/100

/-- The `total_score` combination in `score_stock` (scoring_service.py,
lines 41-46). -/
noncomputable def total_score (w : ScoringWeights) (capital technical fundamental risk : ℝ) : ℝ :=
  capital * w.capital + technical * w.technical +
    fundamental * w.fundamental + risk * w.risk

/-- The scores dict produced by `score_stock` (scoring_service.py,
lines 24-71), before rounding for display. -/
structure ScoreSet where
  capital : ℝ
  technical : ℝ
  fundamental : ℝ
  risk : ℝ
  total : ℝ

/-- Embedding of the score-computing part of
`StockScoringModel.score_stock`: the four sub-scores and their weighted
total. -/
noncomputable def score_stock (w : ScoringWeights) (cap : Option CapitalRow)
    (tech : Option TechnicalRow) (fund : Option FundamentalRow)
    (risk : Option RiskRow) : ScoreSet :=
  let c := calculate_capital_score cap
  let t := calculate_technical_score tech
  let f := calculate_fundamental_score fund
  let r := calculate_risk_score risk
  { capital := c, technical := t, fundamental := f, risk := r
    total := total_score w c t f r }

/-! Theorems about the embedded definitions -/

theorem continuityLoop_take_pos (l : List ℚ) :
    ∀ x ∈ l.take (continuityLoop l), 0 < x := by
  induction l with
  | nil => simp
  | cons f rest ih =>
    by_cases h : f > 0
    · simp only [continuityLoop, if_pos h, List.take_succ_cons, List.mem_cons]
      rintro x (rfl | hx)
      · exact h
      · exact ih x hx
    · simp [continuityLoop, if_neg h]

theorem continuityLoop_maximal (l : List ℚ) :
    ∀ n, n ≤ l.length → (∀ x ∈ l.take n, 0 < x) → n ≤ continuityLoop l := by
  induction l with
  | nil =>
    intro n hn _
    simp only [List.length_nil, Nat.le_zero] at hn
    subst hn
    exact Nat.zero_le _
  | cons f rest ih =>
    intro n hn hpos
    cases n with
    | zero => exact Nat.zero_le _
    | succ m =>
      have hf : 0 < f := hpos f (by simp)
      have hm : m ≤ continuityLoop rest := by
        refine ih m (by simpa using hn) ?_
        intro x hx
        exact hpos x (by simp [List.take_succ_cons, hx])
      simp only [continuityLoop, if_pos hf]
      omega

/-- C4: `continuity_days` computed by `calculate_block_capital_flow` is the
length of the maximal trailing run of strictly-positive net inflow: the
last `continuity_days` entries are all positive, no longer trailing run is
all positive, and the series `[5, -1, 3, 4, 2]` yields 3. -/
theorem continuity_days_trailing_run (flows : List ℚ) :
    (∀ x ∈ flows.reverse.take (continuity_days flows), 0 < x) ∧
    (∀ n, n ≤ flows.length → (∀ x ∈ flows.reverse.take n, 0 < x) →
      n ≤ continuity_days flows) ∧
    continuity_days [5, -1, 3, 4, 2] = 3 := by
  refine ⟨continuityLoop_take_pos flows.reverse, fun n hn hpos => ?_, by decide⟩
  exact continuityLoop_maximal flows.reverse n (by simpa using hn) hpos

theorem continuity_days_trailing_run_witness :
    3 ≤ continuity_days [5, -1, 3, 4, 2] :=
  (continuity_days_trailing_run [5, -1, 3, 4, 2]).2.1 3 (by decide) (by decide)

/-- C2 (counterexample): at `total_score = 100` every band test
`low <= total_score < high` fails — the strong_buy band is half-open at
100 — so the default `hold` is returned, not `strong_buy`. -/
theorem generate_signal_at_100_is_hold :
    (generate_signal 100 50 50).ty = SignalType.hold ∧
      (generate_signal 100 50 50).ty ≠ SignalType.strong_buy := by
  decide

/-- C2 (amended): for `80 ≤ total_score < 100` the signal type is
`strong_buy`, with strength 3 whenever `|capital - technical| ≤ 30`
(no coordination penalty); at exactly 100 the scan falls through to the
default `hold`. -/
theorem generate_signal_strong_buy_band :
    (∀ t c te : ℚ, 80 ≤ t → t < 100 →
      (generate_signal t c te).ty = SignalType.strong_buy ∧
        (|c - te| ≤ 30 → (generate_signal t c te).strength = 3)) ∧
    (∀ c te : ℚ, (generate_signal 100 c te).ty = SignalType.hold) := by
  constructor
  · intro t c te h1 h2
    have hband : firstBand t signalBands = SignalType.strong_buy := by
      simp only [signalBands, firstBand]
      rw [if_pos ⟨h1, h2⟩]
    constructor
    · simp only [generate_signal, hband]
    · intro h3
      have hco : ¬ (|c - te| / 100 > 3 / 10) := by
        rw [not_lt, div_le_div_iff₀ (by norm_num) (by norm_num)]
        linarith
      simp only [generate_signal, hband, baseStrength, if_neg hco]
  · intro c te
    have hband : firstBand 100 signalBands = SignalType.hold := by decide
    simp only [generate_signal, hband]

theorem generate_signal_strong_buy_band_witness :
    (generate_signal 85 50 50).ty = SignalType.strong_buy ∧
      (generate_signal 85 50 50).strength = 3 :=
  ⟨(generate_signal_strong_buy_band.1 85 50 50 (by norm_num) (by norm_num)).1,
   (generate_signal_strong_buy_band.1 85 50 50 (by norm_num) (by norm_num)).2
     (by norm_num)⟩

/-- C3: on the strictly rising series `[1, 2, 3]` with period 2 the
smoothed average loss is 0 at every position, the code sets `rs = 0`, and
`calculate_rsi` returns RSI = 0 everywhere — not the RSI = 100 the
specification states for a zero average loss. -/
theorem calculate_rsi_zero_loss_gives_zero :
    calculate_rsi [1, 2, 3] 2 = [some 0, some 0, some 0] := by
  norm_num [calculate_rsi, diffs, rsiLoop, List.filter, List.replicate]

/-- C5 (counterexample): a nonempty series shorter than the period
returns the all-NaN list, so the first position is undefined, contrary
to the claim that no position is undefined. -/
theorem calculate_ema_short_series_undefined :
    calculate_ema [1] 2 = [none] := by decide

theorem emaLoop_length (a : ℚ) : ∀ (xs : List ℚ) (prev : ℚ),
    (emaLoop a prev xs).length = xs.length := by
  intro xs
  induction xs with
  | nil => intro prev; rfl
  | cons x xs ih => intro prev; simp [emaLoop, ih]

theorem emaLoop_get (a : ℚ) : ∀ (xs : List ℚ) (prev : ℚ) (i : ℕ) (y : ℚ),
    xs[i]? = some y →
    ∃ p, (prev :: emaLoop a prev xs)[i]? = some p ∧
      (emaLoop a prev xs)[i]? = some (a * y + (1 - a) * p) := by
  intro xs
  induction xs with
  | nil => intro prev i y h; simp at h
  | cons x xs ih =>
    intro prev i y h
    cases i with
    | zero =>
      simp only [List.getElem?_cons_zero, Option.some.injEq] at h
      subst h
      exact ⟨prev, by simp, by simp [emaLoop]⟩
    | succ i =>
      simp only [List.getElem?_cons_succ] at h
      obtain ⟨p, hp1, hp2⟩ := ih (a * x + (1 - a) * prev) i y h
      refine ⟨p, ?_, ?_⟩
      · simpa [emaLoop] using hp1
      · simp only [emaLoop]
        simpa using hp2

/-- C5 (amended): for every price series of length ≥ period (period ≥ 1),
`calculate_ema` returns a same-length sequence with no undefined (NaN)
position, seed `ema[0] = series[0]`, and the recurrence
`ema[i] = α·series[i] + (1−α)·ema[i−1]` with `α = 2/(period+1)`; a
nonempty series shorter than the period instead returns all-NaN. -/
theorem calculate_ema_defined (prices : List ℚ) (period : ℕ)
    (hp : 1 ≤ period) (hlen : period ≤ prices.length) :
    (calculate_ema prices period).length = prices.length ∧
    (∀ o ∈ calculate_ema prices period, o ≠ none) ∧
    (∀ x, prices[0]? = some x → (calculate_ema prices period)[0]? = some (some x)) ∧
    (∀ i y, prices[i + 1]? = some y → ∃ p,
      (calculate_ema prices period)[i]? = some (some p) ∧
      (calculate_ema prices period)[i + 1]? =
        some (some ((2 / ((period : ℚ) + 1)) * y + (1 - 2 / ((period : ℚ) + 1)) * p))) := by
  have hne : prices ≠ [] := by
    intro h
    rw [h] at hlen
    simp at hlen
    omega
  obtain ⟨x, xs, rfl⟩ := List.exists_cons_of_ne_nil hne
  have hguard : ¬ ((x :: xs).length < period) := not_lt.mpr hlen
  have hdef : calculate_ema (x :: xs) period =
      ((x :: emaLoop (2 / ((period : ℚ) + 1)) x xs).map some) := by
    simp only [calculate_ema, if_neg hguard]
  rw [hdef]
  refine ⟨?_, ?_, ?_, ?_⟩
  · simp [emaLoop_length]
  · intro o ho
    rcases List.mem_map.mp ho with ⟨v, _, rfl⟩
    simp
  · intro x0 hx0
    simp only [List.getElem?_cons_zero, Option.some.injEq] at hx0
    subst hx0
    simp
  · intro i y hy
    simp only [List.getElem?_cons_succ] at hy
    obtain ⟨p, hp1, hp2⟩ := emaLoop_get (2 / ((period : ℚ) + 1)) xs x i y hy
    refine ⟨p, ?_, ?_⟩
    · rw [List.getElem?_map, hp1]
      rfl
    · rw [List.getElem?_map, List.getElem?_cons_succ, hp2]
      rfl

theorem calculate_ema_defined_witness :
    (calculate_ema [1, 3] 2).length = 2 :=
  (calculate_ema_defined [1, 3] 2 (by norm_num) (by norm_num)).1

theorem trList_length : ∀ (hs ls cs : List ℚ),
    (trList hs ls cs).length = min (min hs.length ls.length) cs.length := by
  intro hs
  induction hs with
  | nil => intro ls cs; cases ls <;> cases cs <;> simp [trList]
  | cons h hs ih =>
    intro ls cs
    cases ls with
    | nil => cases cs <;> simp [trList]
    | cons l ls =>
      cases cs with
      | nil => simp [trList]
      | cons c cs =>
        simp only [trList, List.length_cons, ih]
        omega

theorem wilderLoop_length (p : ℚ) : ∀ (trs : List ℚ) (a0 : ℚ),
    (wilderLoop p a0 trs).length = trs.length := by
  intro trs
  induction trs with
  | nil => intro a0; rfl
  | cons t trs ih => intro a0; simp [wilderLoop, ih]

theorem wilderLoop_get (p : ℚ) : ∀ (trs : List ℚ) (a0 : ℚ) (i : ℕ) (t : ℚ),
    trs[i]? = some t →
    ∃ a, (a0 :: wilderLoop p a0 trs)[i]? = some a ∧
      (wilderLoop p a0 trs)[i]? = some ((a * (p - 1) + t) / p) := by
  intro trs
  induction trs with
  | nil => intro a0 i t h; simp at h
  | cons tr trs ih =>
    intro a0 i t h
    cases i with
    | zero =>
      simp only [List.getElem?_cons_zero, Option.some.injEq] at h
      subst h
      exact ⟨a0, by simp, by simp [wilderLoop]⟩
    | succ i =>
      simp only [List.getElem?_cons_succ] at h
      obtain ⟨a, ha1, ha2⟩ := ih ((a0 * (p - 1) + tr) / p) i t h
      refine ⟨a, ?_, ?_⟩
      · simpa [wilderLoop] using ha1
      · simp only [wilderLoop]
        simpa using ha2

/-- C6 (counterexample): with `n = period` (here both 2) the returned
sequence has length `period + 1 = 3`, not `n = 2` — the code appends the
seed ATR after `period` NaNs even though only `n-1` true ranges exist. -/
theorem calculate_atr_length_overshoot :
    (calculate_atr [1, 2] [1, 2] [1, 2] 2).length = 3 := by
  simp [calculate_atr, trList, wilderLoop]

/-- C6 (amended): for equal-length inputs of length `n > period ≥ 1`,
`calculate_atr` returns exactly `n` entries: the first `period` are NaN,
entry `period` is the mean of the first `period` true ranges, and each
later entry follows the Wilder recurrence
`atr = (atr_prev·(period−1) + tr) / period`; at `n = period` the result
instead has `period + 1` entries. -/
theorem calculate_atr_spec (highs lows closes : List ℚ) (period n : ℕ)
    (hh : highs.length = n) (hl : lows.length = n) (hc : closes.length = n)
    (hp : 1 ≤ period) (hn : period < n) :
    (calculate_atr highs lows closes period).length = n ∧
    (∀ i, i < period → (calculate_atr highs lows closes period)[i]? = some none) ∧
    (calculate_atr highs lows closes period)[period]? =
      some (some (((trList (highs.drop 1) (lows.drop 1) closes).take period).sum / period)) ∧
    (∀ j t, period ≤ j →
      (trList (highs.drop 1) (lows.drop 1) closes)[j]? = some t → ∃ a,
      (calculate_atr highs lows closes period)[j]? = some (some a) ∧
      (calculate_atr highs lows closes period)[j + 1]? =
        some (some ((a * ((period : ℚ) - 1) + t) / period))) := by
  have htrlen : (trList (highs.drop 1) (lows.drop 1) closes).length = n - 1 := by
    rw [trList_length]
    simp only [List.length_drop, hh, hl, hc]
    omega
  have hguard : ¬ (highs.length < period) := by omega
  have hfl : ((trList (highs.drop 1) (lows.drop 1) closes).take period).length = period := by
    rw [List.length_take]
    omega
  have hfne : (trList (highs.drop 1) (lows.drop 1) closes).take period ≠ [] := by
    intro h
    rw [h] at hfl
    simp at hfl
    omega
  have hdef : calculate_atr highs lows closes period =
      List.replicate period (none : Option ℚ) ++
        ((((trList (highs.drop 1) (lows.drop 1) closes).take period).sum / period ::
          wilderLoop period
            (((trList (highs.drop 1) (lows.drop 1) closes).take period).sum / period)
            ((trList (highs.drop 1) (lows.drop 1) closes).drop period)).map some) := by
    simp only [calculate_atr, if_neg hguard, if_neg hfne, hfl]
  rw [hdef]
  refine ⟨?_, ?_, ?_, ?_⟩
  · rw [List.length_append, List.length_replicate, List.length_map, List.length_cons,
      wilderLoop_length, List.length_drop, htrlen]
    omega
  · intro i hi
    rw [List.getElem?_append_left (by simpa using hi), List.getElem?_replicate, if_pos hi]
  · rw [List.getElem?_append_right (by simp), List.length_replicate, Nat.sub_self,
      List.getElem?_map, List.getElem?_cons_zero]
    rfl
  · intro j t hj htj
    obtain ⟨k, rfl⟩ := Nat.exists_eq_add_of_le hj
    have hdropped : ((trList (highs.drop 1) (lows.drop 1) closes).drop period)[k]? = some t := by
      rw [List.getElem?_drop]
      exact htj
    obtain ⟨a, ha1, ha2⟩ := wilderLoop_get (period : ℚ)
      ((trList (highs.drop 1) (lows.drop 1) closes).drop period)
      (((trList (highs.drop 1) (lows.drop 1) closes).take period).sum / period) k t hdropped
    refine ⟨a, ?_, ?_⟩
    · rw [List.getElem?_append_right (by simp), List.length_replicate,
        Nat.add_sub_cancel_left, List.getElem?_map, ha1]
      rfl
    · rw [List.getElem?_append_right (by simp; omega), List.length_replicate]
      have : period + k + 1 - period = k + 1 := by omega
      rw [this, List.getElem?_map, List.getElem?_cons_succ, ha2]
      rfl

theorem calculate_atr_spec_witness :
    (calculate_atr [1, 2, 3] [0, 1, 2] [1, 2, 3] 1).length = 3 :=
  (calculate_atr_spec [1, 2, 3] [0, 1, 2] [1, 2, 3] 1 3 rfl rfl rfl
    (by norm_num) (by norm_num)).1

/-- C8 (counterexample): with a prior-day net inflow of exactly 0 and a
current net inflow of 5 (> 2 × 0), Python truthiness makes the guard
`if result.prev_inflow and ...` falsy and no `capital_acceleration`
alert is raised, although the claim requires one. -/
theorem capital_acceleration_zero_prior_not_raised :
    check_capital_alerts (some ⟨5, 1, 0, some 0⟩) = [] ∧ (0 : ℚ) * 2 < 5 := by
  constructor
  · norm_num [check_capital_alerts]
  · norm_num

/-- C8 (amended): `_check_capital_alerts` raises the
`capital_acceleration` alert (level info) iff the prior-day net inflow
exists, is nonzero, and the current net inflow exceeds twice it. -/
theorem capital_acceleration_iff (r : CapitalAlertRow) :
    (Alert.mk .capital_acceleration .info) ∈ check_capital_alerts (some r) ↔
      ∃ p, r.prev_inflow = some p ∧ p ≠ 0 ∧ p * 2 < r.net_inflow := by
  cases hp : r.prev_inflow with
  | none =>
    simp only [check_capital_alerts, hp, List.mem_append]
    split_ifs <;> simp
  | some p =>
    simp only [check_capital_alerts, hp, List.mem_append]
    split_ifs with h1 h2 h3 <;> simp_all [gt_iff_lt]

/-- C9: calling `fill_missing_values` with method `forward` or
`backward` on data containing a NaN and a valid value raises
`NameError: name 'pd' is not defined`, because `data_processor.py` never
imports pandas; no filled list is returned. -/
theorem fill_missing_forward_backward_raise :
    fill_missing_values [none, some 1] "forward" = FillResult.nameError ∧
    fill_missing_values [none, some 1] "backward" = FillResult.nameError := by
  constructor <;> rfl

theorem listStd_nonneg (l : List ℝ) : 0 ≤ listStd l := Real.sqrt_nonneg _

/-- C10: the stability score of `_calculate_stability` is at most 1,
equals 1 in the degenerate cases (fewer than 2 points, or zero mean),
and is not bounded below by 0: on the sign-mixed series `[10, -10, 10]`
(std = √(800/9) > |mean| = 10/3) it is negative. -/
theorem calculate_stability_spec :
    (∀ flows : List ℝ, calculate_stability flows ≤ 1) ∧
    (∀ flows : List ℝ, flows.length < 2 → calculate_stability flows = 1) ∧
    (∀ flows : List ℝ, 2 ≤ flows.length → listMean flows = 0 →
      calculate_stability flows = 1) ∧
    calculate_stability [10, -10, 10] < 0 := by
  refine ⟨?_, ?_, ?_, ?_⟩
  · intro flows
    unfold calculate_stability
    split_ifs with h1 h2
    · exact le_refl 1
    · exact sub_le_self _ (div_nonneg (listStd_nonneg _) (abs_nonneg _))
    · exact le_refl 1
  · intro flows h
    simp [calculate_stability, if_pos h]
  · intro flows h hm
    rw [calculate_stability, if_neg (not_lt.mpr h), if_neg (by simp [hm])]
  · have hm : listMean [10, -10, 10] = 10 / 3 := by
      simp only [listMean, List.sum_cons, List.sum_nil, List.length_cons,
        List.length_nil]
      norm_num
    have hstd : listStd [10, -10, 10] = Real.sqrt (800 / 9) := by
      simp only [listStd, hm, List.map_cons, List.map_nil, List.sum_cons,
        List.sum_nil, List.length_cons, List.length_nil]
      norm_num
    have hlen : ¬ (([10, -10, 10] : List ℝ).length < 2) := by simp
    have hmean0 : listMean [10, -10, 10] ≠ 0 := by rw [hm]; norm_num
    rw [calculate_stability, if_neg hlen, if_pos hmean0, hstd, hm]
    have h8 : (10 / 3 : ℝ) < Real.sqrt (800 / 9) := by
      rw [Real.lt_sqrt (by norm_num)]
      norm_num
    have habs : |(10 / 3 : ℝ)| = 10 / 3 := abs_of_pos (by norm_num)
    rw [habs]
    have hdiv : (1 : ℝ) < Real.sqrt (800 / 9) / (10 / 3) := by
      rw [lt_div_iff₀ (by norm_num)]
      linarith
    linarith

theorem calculate_stability_spec_witness :
    calculate_stability ([] : List ℝ) = 1 :=
  calculate_stability_spec.2.1 [] (by simp)

theorem clampScore_nonneg (s : ℝ) : 0 ≤ clampScore s :=
  le_min (le_max_right s 0) (by norm_num)

theorem clampScore_le_100 (s : ℝ) : clampScore s ≤ 100 := min_le_right _ _

theorem calculate_capital_score_bounds (row : Option CapitalRow) :
    0 ≤ calculate_capital_score row ∧ calculate_capital_score row ≤ 100 := by
  cases row with
  | none =>
    constructor <;> norm_num [calculate_capital_score]
  | some r =>
    exact ⟨clampScore_nonneg _, clampScore_le_100 _⟩

theorem calculate_technical_score_bounds (row : Option TechnicalRow) :
    0 ≤ calculate_technical_score row ∧ calculate_technical_score row ≤ 100 := by
  cases row with
  | none =>
    constructor <;> norm_num [calculate_technical_score]
  | some r =>
    exact ⟨clampScore_nonneg _, clampScore_le_100 _⟩

theorem calculate_fundamental_score_bounds (row : Option FundamentalRow) :
    0 ≤ calculate_fundamental_score row ∧ calculate_fundamental_score row ≤ 100 := by
  cases row with
  | none =>
    constructor <;> norm_num [calculate_fundamental_score]
  | some r =>
    exact ⟨clampScore_nonneg _, clampScore_le_100 _⟩

theorem calculate_risk_score_bounds (row : Option RiskRow) :
    0 ≤ calculate_risk_score row ∧ calculate_risk_score row ≤ 100 := by
  cases row with
  | none =>
    constructor <;> norm_num [calculate_risk_score]
  | some r =>
    exact ⟨clampScore_nonneg _, clampScore_le_100 _⟩

/-- C1: for every input (missing rows yielding the neutral 50) and any
non-negative weights summing to 1, each sub-score of `score_stock` lies
in [0, 100] (each ends in `min(max(score, 0), 100)`), and the weighted
`total_score` also lies in [0, 100]. -/
theorem score_stock_in_range (w : ScoringWeights) (cap : Option CapitalRow)
    (tech : Option TechnicalRow) (fund : Option FundamentalRow)
    (risk : Option RiskRow) (hwc : 0 ≤ w.capital) (hwt : 0 ≤ w.technical)
    (hwf : 0 ≤ w.fundamental) (hwr : 0 ≤ w.risk)
    (hsum : w.capital + w.technical + w.fundamental + w.risk = 1) :
    (0 ≤ (score_stock w cap tech fund risk).capital ∧
      (score_stock w cap tech fund risk).capital ≤ 100) ∧
    (0 ≤ (score_stock w cap tech fund risk).technical ∧
      (score_stock w cap tech fund risk).technical ≤ 100) ∧
    (0 ≤ (score_stock w cap tech fund risk).fundamental ∧
      (score_stock w cap tech fund risk).fundamental ≤ 100) ∧
    (0 ≤ (score_stock w cap tech fund risk).risk ∧
      (score_stock w cap tech fund risk).risk ≤ 100) ∧
    (0 ≤ (score_stock w cap tech fund risk).total ∧
      (score_stock w cap tech fund risk).total ≤ 100) := by
  obtain ⟨hc0, hc1⟩ := calculate_capital_score_bounds cap
  obtain ⟨ht0, ht1⟩ := calculate_technical_score_bounds tech
  obtain ⟨hf0, hf1⟩ := calculate_fundamental_score_bounds fund
  obtain ⟨hr0, hr1⟩ := calculate_risk_score_bounds risk
  simp only [score_stock, total_score]
  refine ⟨⟨hc0, hc1⟩, ⟨ht0, ht1⟩, ⟨hf0, hf1⟩, ⟨hr0, hr1⟩, ?_, ?_⟩
  · have := mul_nonneg hc0 hwc
    have := mul_nonneg ht0 hwt
    have := mul_nonneg hf0 hwf
    have := mul_nonneg hr0 hwr
    linarith
  · have h1 := mul_le_mul_of_nonneg_right hc1 hwc
    have h2 := mul_le_mul_of_nonneg_right ht1 hwt
    have h3 := mul_le_mul_of_nonneg_right hf1 hwf
    have h4 := mul_le_mul_of_nonneg_right hr1 hwr
    nlinarith [hsum]

theorem argminIdx_lt_length : ∀ (l : List ℚ), l ≠ [] → argminIdx l < l.length := by
  intro l
  induction l with
  | nil => intro h; exact absurd rfl h
  | cons x tail ih =>
    intro _
    cases tail with
    | nil => simp [argminIdx]
    | cons y rest =>
      simp only [argminIdx]
      split_ifs
      · simp
      · have := ih (by simp)
        simp only [List.length_cons] at *
        omega

theorem argminIdx_getD_le : ∀ (l : List ℚ) (j : ℕ), j < l.length →
    l.getD (argminIdx l) 0 ≤ l.getD j 0 := by
  intro l
  induction l with
  | nil => intro j hj; simp at hj
  | cons x tail ih =>
    intro j hj
    cases tail with
    | nil =>
      rcases j with _ | j
      · simp [argminIdx]
      · simp at hj
    | cons y rest =>
      simp only [argminIdx]
      split_ifs with hx
      · cases j with
        | zero => simp
        | succ k =>
          have hk : k < (y :: rest).length := by simpa using hj
          have h2 := ih k hk
          simp only [List.getD_cons_zero, List.getD_cons_succ]
          exact le_trans hx h2
      · cases j with
        | zero =>
          simp only [List.getD_cons_succ, List.getD_cons_zero]
          exact le_of_lt (lt_of_not_le hx)
        | succ k =>
          have hk : k < (y :: rest).length := by simpa using hj
          simp only [List.getD_cons_succ]
          exact ih k hk

theorem levelOf_props (buyCosts volumes : List ℚ) (assign : List ℕ) (iMin i : ℕ)
    (h : clusterPoints buyCosts assign i ≠ []) :
    ∃ L, levelOf buyCosts volumes assign iMin i = some L ∧
      L.price_level = clusterCenter buyCosts assign i ∧
      L.kind = if i = iMin then LevelKind.support else LevelKind.resistance := by
  unfold levelOf
  rw [if_neg (by simpa using h)]
  exact ⟨_, rfl, rfl, rfl⟩

/-- C7: `_find_cost_levels` returns the empty list when fewer than 3
days of history exist; with at least 3 days, at least 3 distinct
buy_vwap values and a converged 3-cluster assignment (every cluster
nonempty), it returns exactly 3 levels sorted ascending by
`price_level`, exactly one of which is labeled support, namely one of
minimal `price_level`. -/
theorem find_cost_levels_spec :
    (∀ (hist : List DailyCost) (assign : List ℕ), hist.length < 3 →
      find_cost_levels hist assign = []) ∧
    (∀ (hist : List DailyCost) (assign : List ℕ),
      3 ≤ hist.length →
      3 ≤ (hist.map (fun d => d.buy_vwap)).dedup.length →
      (∀ i, i < 3 → clusterPoints (hist.map (fun d => d.buy_vwap)) assign i ≠ []) →
      (find_cost_levels hist assign).length = 3 ∧
      List.Sorted levelLE (find_cost_levels hist assign) ∧
      (find_cost_levels hist assign).countP
        (fun l => decide (l.kind = LevelKind.support)) = 1 ∧
      (∀ s ∈ find_cost_levels hist assign, s.kind = LevelKind.support →
        ∀ l ∈ find_cost_levels hist assign, s.price_level ≤ l.price_level)) := by
  constructor
  · intro hist assign hlt
    simp only [find_cost_levels]
    split_ifs with h1 h2
    · rfl
    · rfl
    · rw [List.length_map] at h2
      omega
  · intro hist assign h3 hd hne
    have hie : hist.isEmpty = false := by
      cases hist with
      | nil => simp at h3
      | cons a t => rfl
    have hBlen : (hist.map (fun d => d.buy_vwap)).length = hist.length :=
      List.length_map _ _
    have hguard : ¬ ((hist.map (fun d => d.buy_vwap)).length < 3) := by omega
    have hmin : min 3 (hist.map (fun d => d.buy_vwap)).dedup.length = 3 :=
      min_eq_left hd
    set B := hist.map (fun d => d.buy_vwap) with hB
    set V := hist.map (fun d => d.total_buy_amount) with hV
    set C := (List.range 3).map (clusterCenter B assign) with hC
    have hres : find_cost_levels hist assign =
        List.insertionSort levelLE
          ((List.range 3).filterMap (levelOf B V assign (argminIdx C))) := by
      rw [find_cost_levels]
      rw [if_neg (by rw [hie]; simp)]
      rw [if_neg hguard]
      rw [hmin]
    set m := argminIdx C with hm
    have hClen : C.length = 3 := by rw [hC]; simp
    have hCne : C ≠ [] := by
      intro h
      rw [h] at hClen
      simp at hClen
    have hmlt : m < 3 := by
      have := argminIdx_lt_length C hCne
      rw [hClen] at this
      exact this
    have hle : ∀ j, j < 3 → C.getD m 0 ≤ C.getD j 0 := by
      intro j hj
      exact argminIdx_getD_le C j (by omega)
    have hCgetD : ∀ j, j < 3 → C.getD j 0 = clusterCenter B assign j := by
      intro j hj
      rw [hC, show List.range 3 = [0, 1, 2] from rfl]
      rcases j with _ | _ | _ | j
      · rfl
      · rfl
      · rfl
      · omega
    obtain ⟨L0, hs0, hp0, hk0⟩ := levelOf_props B V assign m 0 (hne 0 (by norm_num))
    obtain ⟨L1, hs1, hp1, hk1⟩ := levelOf_props B V assign m 1 (hne 1 (by norm_num))
    obtain ⟨L2, hs2, hp2, hk2⟩ := levelOf_props B V assign m 2 (hne 2 (by norm_num))
    have hlev : (List.range 3).filterMap (levelOf B V assign m) = [L0, L1, L2] := by
      rw [show List.range 3 = [0, 1, 2] from rfl]
      simp [List.filterMap_cons, hs0, hs1, hs2]
    rw [hres, hlev]
    have hperm := List.perm_insertionSort levelLE [L0, L1, L2]
    refine ⟨?_, ?_, ?_, ?_⟩
    · rw [hperm.length_eq]
      rfl
    · exact List.sorted_insertionSort levelLE _
    · rw [hperm.countP_eq]
      have hm3 : m = 0 ∨ m = 1 ∨ m = 2 := by omega
      rcases hm3 with h | h | h <;>
        rw [h] at hk0 hk1 hk2 <;>
        simp [List.countP_cons, List.countP_nil, hk0, hk1, hk2]
    · intro s hs hskind l hl
      rw [hperm.mem_iff] at hs hl
      have hsp : s.price_level = C.getD m 0 := by
        rcases List.mem_cons.mp hs with rfl | hs'
        · rw [hk0] at hskind
          split_ifs at hskind with he
          rw [hp0, ← he, hCgetD 0 (by norm_num)]
        rcases List.mem_cons.mp hs' with rfl | hs''
        · rw [hk1] at hskind
          split_ifs at hskind with he
          rw [hp1, ← he, hCgetD 1 (by norm_num)]
        rcases List.mem_cons.mp hs'' with rfl | hs'''
        · rw [hk2] at hskind
          split_ifs at hskind with he
          rw [hp2, ← he, hCgetD 2 (by norm_num)]
        · simp at hs'''
      have hlp : ∃ j, j < 3 ∧ l.price_level = C.getD j 0 := by
        rcases List.mem_cons.mp hl with rfl | hl'
        · exact ⟨0, by norm_num, by rw [hp0, hCgetD 0 (by norm_num)]⟩
        rcases List.mem_cons.mp hl' with rfl | hl''
        · exact ⟨1, by norm_num, by rw [hp1, hCgetD 1 (by norm_num)]⟩
        rcases List.mem_cons.mp hl'' with rfl | hl'''
        · exact ⟨2, by norm_num, by rw [hp2, hCgetD 2 (by norm_num)]⟩
        · simp at hl'''
      obtain ⟨j, hj, hjp⟩ := hlp
      rw [hsp, hjp]
      exact hle j hj

theorem find_cost_levels_spec_witness :
    (find_cost_levels [⟨1, 1⟩, ⟨2, 1⟩, ⟨3, 1⟩] [0, 1, 2]).length = 3 :=
  (find_cost_levels_spec.2 [⟨1, 1⟩, ⟨2, 1⟩, ⟨3, 1⟩] [0, 1, 2]
    (by norm_num) (by decide) (by decide)).1

theorem score_stock_in_range_witness :
    0 ≤ (score_stock ⟨40/100, 30/100, 20/100, 10/100⟩ none none none none).total ∧
      (score_stock ⟨40/100, 30/100, 20/100, 10/100⟩ none none none none).total ≤ 100 :=
  (score_stock_in_range ⟨40/100, 30/100, 20/100, 10/100⟩ none none none none
    (by norm_num) (by norm_num) (by norm_num) (by norm_num) (by norm_num)).2.2.2.2

end StockPlatform
